import Mathlib

/-!
Verification of the hs-label canvas interaction engine.

The definitions below are a shallow embedding of the TypeScript sources:
`src/utils/geometry.ts` (coordinate mapper, geometry primitives and the
`CanvasArea` event handlers embedded in that file, which is the variant
`src/App.tsx` actually drives), `src/App.tsx` (history, delete guard,
alignment) and `src/unnamed/part_002` (polygon area, bounds, move).
JavaScript numbers are modelled by `ℚ`; `Math.sqrt d < t` comparisons are
embedded as the equivalent `0 < t ∧ d < t^2` on the squared distance.
-/

namespace HsLabel

/-- The `Point` from src/types.ts: `{x, y}` in image space. -/
structure Point where
  x : ℚ
  y : ℚ
  deriving Repr, DecidableEq

/-- The `ViewTransform` from src/types.ts: `screen = image*scale + (x, y)`. -/
structure ViewTransform where
  scale : ℚ
  x : ℚ
  y : ℚ
  deriving Repr, DecidableEq

/-- The `screenToImage` from src/utils/geometry.ts lines 3-12. -/
def screenToImage (x y : ℚ) (transform : ViewTransform) : Point :=
  { x := (x - transform.x) / transform.scale,
    y := (y - transform.y) / transform.scale }

/-- The `imageToScreen` from src/utils/geometry.ts lines 14-23. -/
def imageToScreen (x y : ℚ) (transform : ViewTransform) : Point :=
  { x := x * transform.scale + transform.x,
    y := y * transform.scale + transform.y }

/-- The squared Euclidean distance `(p2.x-p1.x)^2 + (p2.y-p1.y)^2`;
`getDistance` in src/utils/geometry.ts line 25 is its square root. -/
def getDistanceSq (p1 p2 : Point) : ℚ :=
  (p2.x - p1.x) ^ 2 + (p2.y - p1.y) ^ 2

/-- Embedding of `Math.sqrt d < t` for `d ≥ 0`: true iff `t` is positive
and `d < t^2`. -/
def sqrtLt (d t : ℚ) : Prop := 0 < t ∧ d < t ^ 2

instance (d t : ℚ) : Decidable (sqrtLt d t) := by
  unfold sqrtLt; infer_instance

/-- The `Math.sqrt d < t ↔ sqrtLt d t` over the reals, for `d ≥ 0`:
the embedding of the comparison is faithful. -/
theorem sqrtLt_faithful (d t : ℚ) (hd : 0 ≤ (d : ℝ)) :
    Real.sqrt d < (t : ℝ) ↔ sqrtLt d t := by
  constructor
  · intro h
    have ht : (0 : ℝ) < t := lt_of_le_of_lt (Real.sqrt_nonneg _) h
    have h2 : (d : ℝ) < (t : ℝ) ^ 2 := by
      have := Real.lt_sq_of_sqrt_lt h
      simpa [sq] using this
    constructor
    · exact_mod_cast ht
    · have : (d : ℝ) < ((t : ℝ)) ^ 2 := h2
      have : (d : ℝ) < ((t ^ 2 : ℚ) : ℝ) := by push_cast; linarith
      exact_mod_cast this
  · rintro ⟨ht, h2⟩
    have ht' : (0 : ℝ) < t := by exact_mod_cast ht
    have h2' : (d : ℝ) < (t : ℝ) ^ 2 := by
      have : ((d : ℚ) : ℝ) < ((t ^ 2 : ℚ) : ℝ) := by exact_mod_cast h2
      push_cast at this; linarith
    have := Real.sqrt_lt_sqrt hd h2'
    calc Real.sqrt d < Real.sqrt ((t : ℝ) ^ 2) := this
      _ = t := by rw [Real.sqrt_sq ht'.le]

/-- Wheel direction: `e.deltaY < 0 ? 1 : -1` in the onWheel handler. -/
def wheelDirection (deltaY : ℚ) : ℚ := if deltaY < 0 then 1 else -1

/-- One wheel event, src/utils/geometry.ts lines 159-184 (identical in
src/components/CanvasArea.tsx lines 76-102): `factor = 1 + direction*0.1`,
`newScale = clamp(scale*factor, 0.1, 50)`, then the anchor-preserving
translation update. -/
def onWheel (deltaY mouseX mouseY : ℚ) (transform : ViewTransform) :
    ViewTransform :=
  let zoomIntensity : ℚ := 1/10
  let direction := wheelDirection deltaY
  let factor := 1 + direction * zoomIntensity
  let newScale := max (1/10) (min (transform.scale * factor) 50)
  let newX := mouseX - (mouseX - transform.x) * (newScale / transform.scale)
  let newY := mouseY - (mouseY - transform.y) * (newScale / transform.scale)
  { scale := newScale, x := newX, y := newY }

/-- The `handleZoom` from src/App.tsx lines 181-186 (same in
src/unnamed/part_003 lines 435-440): multiply or divide the scale by 1.2
with no clamping; translation unchanged. -/
def handleZoom (zoomIn : Bool) (prev : ViewTransform) : ViewTransform :=
  { prev with
    scale := if zoomIn then prev.scale * (12/10) else prev.scale / (12/10) }

/-- C3: for every point p and transform T with nonzero scale,
`screenToImage (imageToScreen p T) T = p`; over `ℚ` the round trip is
exact, so it holds a fortiori within floating tolerance. -/
theorem screenToImage_imageToScreen_roundtrip
    (p : Point) (T : ViewTransform) (h : T.scale ≠ 0) :
    screenToImage (imageToScreen p.x p.y T).x (imageToScreen p.x p.y T).y T
      = p := by
  simp only [screenToImage, imageToScreen]
  cases p with
  | mk px py =>
    simp only [Point.mk.injEq]
    constructor <;> field_simp

/-- Witness for C3 at p = (3, -7), T = ⟨2, 5, 11⟩. -/
theorem screenToImage_imageToScreen_roundtrip_witness :
    (⟨2, 5, 11⟩ : ViewTransform).scale ≠ 0 ∧
    screenToImage (imageToScreen (3 : ℚ) (-7) ⟨2, 5, 11⟩).x
      (imageToScreen (3 : ℚ) (-7) ⟨2, 5, 11⟩).y ⟨2, 5, 11⟩ = ⟨3, -7⟩ :=
  ⟨by decide,
   screenToImage_imageToScreen_roundtrip ⟨3, -7⟩ ⟨2, 5, 11⟩ (by decide)⟩

/-- The `ShapeType` from src/types.ts. -/
inductive ShapeType where
  | rectangle
  | polygon
  deriving Repr, DecidableEq

/-- The `Annotation` from src/unnamed/part_004 (the types revision carrying
the `locked` flag that src/App.tsx reads). -/
structure Annotation where
  id : String
  label : String
  type : ShapeType
  points : List Point
  color : String
  visible : Bool
  locked : Bool
  deriving Repr, DecidableEq

/-- The `HistoryItem` from src/App.tsx lines 13-16. -/
structure HistoryItem where
  annotations : List Annotation
  action : String
  deriving Repr, DecidableEq

/-- The slice of App state that the history logic touches:
`annotations`, `selectedIds`, and the two history stacks. -/
structure AppState where
  annotations : List Annotation
  selectedIds : List String
  past : List HistoryItem
  future : List HistoryItem
  deriving Repr, DecidableEq

/-- The `snapshotHistory` from src/App.tsx lines 69-74: push the current
annotations (tagged with the action label) onto `past`, clear `future`. -/
def snapshotHistory (action : String) (s : AppState) : AppState :=
  { s with
    past := s.past ++ [{ annotations := s.annotations, action := action }],
    future := [] }

/-- The `handleUndo` from src/App.tsx lines 76-94: no-op when `past` is empty
(`past.getLast? = none`); otherwise pop the most recent entry, push the
current annotations onto `future` tagged with the popped entry's action,
restore the popped snapshot and clear the selection. -/
def handleUndo (s : AppState) : AppState :=
  match s.past.getLast? with
  | none => s
  | some previous =>
    { s with
      past := s.past.dropLast,
      future := { annotations := s.annotations,
                  action := previous.action } :: s.future,
      annotations := previous.annotations,
      selectedIds := [] }

/-- The `handleRedo` from src/App.tsx lines 96-114: no-op when `future` is
empty; otherwise shift the first entry, push the current annotations onto
`past` tagged with that entry's action, restore it and clear selection. -/
def handleRedo (s : AppState) : AppState :=
  match s.future with
  | [] => s
  | next :: newFuture =>
    { s with
      past := s.past ++ [{ annotations := s.annotations,
                           action := next.action }],
      future := newFuture,
      annotations := next.annotations,
      selectedIds := [] }

/-- A committing mutation preceded by a snapshot: the component snapshots
and then replaces the annotation collection (and possibly selection). -/
def mutateAfterSnapshot (action : String) (newAnns : List Annotation)
    (newSel : List String) (s : AppState) : AppState :=
  { (snapshotHistory action s) with
    annotations := newAnns,
    selectedIds := newSel }

/-- C1: `snapshotHistory` pushes the current collection onto `past` and
clears `future`; after snapshot+mutate, `handleUndo` restores the exact
pre-mutation collection and clears the selection, and `handleRedo` after
that undo restores the exact post-mutation collection. -/
theorem undo_redo_roundtrip (action : String) (newAnns : List Annotation)
    (newSel : List String) (s : AppState) :
    (snapshotHistory action s).past
        = s.past ++ [{ annotations := s.annotations, action := action }] ∧
    (snapshotHistory action s).future = [] ∧
    (handleUndo (mutateAfterSnapshot action newAnns newSel s)).annotations
        = s.annotations ∧
    (handleUndo (mutateAfterSnapshot action newAnns newSel s)).selectedIds
        = [] ∧
    (handleRedo (handleUndo
        (mutateAfterSnapshot action newAnns newSel s))).annotations
        = newAnns := by
  refine ⟨rfl, rfl, ?_, ?_, ?_⟩ <;>
    simp [handleUndo, handleRedo, mutateAfterSnapshot, snapshotHistory,
      List.getLast?_concat]

/-- The `ToolType` from src/types.ts. -/
inductive ToolType where
  | select
  | pan
  | rectangle
  | polygon
  deriving Repr, DecidableEq

/-- The `activeVertex` state `{id, index}` in the CanvasArea of
src/utils/geometry.ts line 120. -/
structure ActiveVertex where
  id : String
  index : ℕ
  deriving Repr, DecidableEq

/-- The interaction state of the CanvasArea embedded in
src/utils/geometry.ts (the variant src/App.tsx renders): the fields its
pointer/keyboard handlers read and write. -/
structure CanvasState where
  annotations : List Annotation
  selectedId : Option String
  isDragging : Bool
  dragStart : Option Point
  currentMouseImagePos : Option Point
  pendingPoly : List Point
  pendingRectStart : Option Point
  activeVertex : Option ActiveVertex
  deriving Repr, DecidableEq

/-- The `handleDelete` from src/App.tsx lines 233-237: snapshot, then drop
every annotation whose id is in `ids` and clear the selection. -/
def handleDelete (ids : List String) (s : AppState) : AppState :=
  { (snapshotHistory "删除标注" s) with
    annotations := s.annotations.filter (fun a => ¬ ids.contains a.id),
    selectedIds := [] }

/-- The `selectedIds.some(id => annotations.find(a => a.id === id)?.locked)`
from src/App.tsx line 135. -/
def hasLockedSelected (s : AppState) : Bool :=
  s.selectedIds.any (fun id =>
    ((s.annotations.find? (fun a => a.id = id)).map Annotation.locked).getD
      false)

/-- The DELETE branch of the global keydown handler, src/App.tsx lines
133-140: with a nonempty selection, refuse the whole delete when any
selected annotation is locked; otherwise delete all selected. -/
def deleteShortcutKeyDown (s : AppState) : AppState :=
  if s.selectedIds.length > 0 then
    if hasLockedSelected s then s else handleDelete s.selectedIds s
  else s

/-- The nudge branch of the CanvasArea keydown handler,
src/utils/geometry.ts lines 200-239: after the early returns for pending
drawing buffers, when a shape is selected and no vertex is active, an
arrow key press (direction `(dxKey, dyKey)`, each in {-1, 0, 1})
translates the selected annotation's points by the step (×10 with Shift)
divided by the zoom scale. The history snapshot side effect is modelled
separately (`snapshotHistory`); no lock check appears in the source. -/
def nudgeKeyDown (dxKey dyKey : ℚ) (shiftKey : Bool) (scale : ℚ)
    (s : CanvasState) : CanvasState :=
  if s.pendingPoly.length > 0 then s
  else if s.pendingRectStart.isSome then s
  else
    match s.selectedId, s.activeVertex with
    | some selId, none =>
      if dxKey ≠ 0 ∨ dyKey ≠ 0 then
        let step : ℚ := if shiftKey then 10 else 1
        let dx := dxKey * step
        let dy := dyKey * step
        let scaleFactor := 1 / scale
        { s with
          annotations := s.annotations.map (fun ann =>
            if ann.id ≠ selId then ann
            else { ann with
                   points := ann.points.map (fun p =>
                     ⟨p.x + dx * scaleFactor, p.y + dy * scaleFactor⟩) }) }
      else s
    | _, _ => s

/-- The whole-shape drag branch of the CanvasArea mousemove handler,
src/utils/geometry.ts lines 503-519: while dragging with a selection and
no active vertex in select mode, translate the selected annotation's
points by the image-space delta from the previous pointer position and
rebase `dragStart`. No lock check appears in the source. -/
def shapeDragMouseMove (tool : ToolType) (imgPos : Point)
    (s : CanvasState) : CanvasState :=
  match s.dragStart, s.selectedId with
  | some dragStart, some selId =>
    if s.isDragging && s.activeVertex.isNone && (tool = ToolType.select) then
      let dx := imgPos.x - dragStart.x
      let dy := imgPos.y - dragStart.y
      { s with
        annotations := s.annotations.map (fun ann =>
          if ann.id ≠ selId then ann
          else { ann with
                 points := ann.points.map (fun p =>
                   ⟨p.x + dx, p.y + dy⟩) }),
        dragStart := some imgPos }
    else s
  | _, _ => s

/-- Sample fixture: a locked rectangle annotation. -/
def lockedA : Annotation :=
  ⟨"a", "defect", ShapeType.rectangle, [⟨0, 0⟩, ⟨10, 10⟩], "#f00",
   true, true⟩

/-- Sample fixture: an unlocked rectangle annotation. -/
def unlockedB : Annotation :=
  ⟨"b", "defect", ShapeType.rectangle, [⟨20, 0⟩, ⟨30, 10⟩], "#0f0",
   true, false⟩

/-- C2 counterexample: (i) nudging a selected *locked* annotation does
change its points (the nudge handler has no lock check), refuting "leaves
that annotation's points unchanged"; (ii) pressing DELETE with a locked
and an unlocked annotation both selected leaves the collection unchanged
— the unlocked member is NOT deleted — refuting "the operation still
proceeds on the remaining unlocked members, never aborting the whole
batch". -/
theorem locked_not_filtered_counterexample :
    (nudgeKeyDown (-1) 0 false 1
        ⟨[lockedA], some "a", false, none, none, [], none, none⟩).annotations
      ≠ [lockedA] ∧
    (deleteShortcutKeyDown
        ⟨[lockedA, unlockedB], ["a", "b"], [], []⟩).annotations
      = [lockedA, unlockedB] := by
  constructor
  · simp [nudgeKeyDown, lockedA, Annotation.mk.injEq, Point.mk.injEq]
  · decide

/-- C2 amended: lock enforcement in the code is exactly this: (1) the
DELETE guard aborts the *entire* delete when any selected annotation is
locked; (2) when no selected annotation is locked, DELETE removes every
selected annotation and clears the selection; (3) the nudge handler and
(4) the shape-drag handler translate the selected annotation with no lock
check at all — a locked selected annotation is mutated like any other. -/
theorem locked_guard_behavior (s : AppState) (c : CanvasState)
    (selId : String) (dxKey dyKey scale : ℚ) (shiftKey : Bool)
    (d imgPos : Point) :
    (hasLockedSelected s = true → deleteShortcutKeyDown s = s) ∧
    (s.selectedIds ≠ [] → hasLockedSelected s = false →
      (deleteShortcutKeyDown s).annotations
          = s.annotations.filter (fun a => ¬ s.selectedIds.contains a.id) ∧
      (deleteShortcutKeyDown s).selectedIds = []) ∧
    (c.pendingPoly = [] → c.pendingRectStart = none →
      c.selectedId = some selId → c.activeVertex = none →
      (dxKey ≠ 0 ∨ dyKey ≠ 0) →
      ∀ ann ∈ c.annotations, ann.id = selId →
        { ann with points := ann.points.map (fun p =>
            ⟨p.x + dxKey * (if shiftKey then 10 else 1) * (1 / scale),
             p.y + dyKey * (if shiftKey then 10 else 1) * (1 / scale)⟩) }
          ∈ (nudgeKeyDown dxKey dyKey shiftKey scale c).annotations) ∧
    (c.dragStart = some d → c.selectedId = some selId →
      c.isDragging = true → c.activeVertex = none →
      ∀ ann ∈ c.annotations, ann.id = selId →
        { ann with points := ann.points.map (fun p =>
            ⟨p.x + (imgPos.x - d.x), p.y + (imgPos.y - d.y)⟩) }
          ∈ (shapeDragMouseMove ToolType.select imgPos c).annotations) := by
  refine ⟨?_, ?_, ?_, ?_⟩
  · intro h
    simp only [deleteShortcutKeyDown, h]
    split <;> rfl
  · intro hne h
    have hlen : s.selectedIds.length > 0 := by
      cases hsel : s.selectedIds with
      | nil => exact absurd hsel hne
      | cons a l => simp [hsel]
    simp only [deleteShortcutKeyDown, if_pos hlen, h]
    exact ⟨rfl, rfl⟩
  · intro hpoly hrect hsel hav hkey ann hmem hid
    simp only [nudgeKeyDown, hpoly, hrect, hsel, hav, List.length_nil,
      gt_iff_lt, lt_self_iff_false, if_false, Option.isSome_none,
      Bool.false_eq_true, if_pos hkey]
    refine List.mem_map.2 ⟨ann, hmem, ?_⟩
    rw [if_neg (by simp [hid])]
  · intro hds hsel hdrag hav ann hmem hid
    simp only [shapeDragMouseMove, hds, hsel, hdrag, hav,
      Option.isNone_none, Bool.and_true, Bool.true_and, decide_True,
      Bool.and_self, if_true]
    refine List.mem_map.2 ⟨ann, hmem, ?_⟩
    rw [if_neg (by simp [hid])]

/-- Witness for the amended C2 theorem: all four parts instantiated at
concrete states (a locked+unlocked pair for the delete guard, a single
annotation for nudge and drag). -/
theorem locked_guard_behavior_witness :
    (deleteShortcutKeyDown ⟨[lockedA, unlockedB], ["a", "b"], [], []⟩
        = ⟨[lockedA, unlockedB], ["a", "b"], [], []⟩) ∧
    ((deleteShortcutKeyDown ⟨[lockedA, unlockedB], ["b"], [], []⟩).annotations
        = [lockedA] ∧
      (deleteShortcutKeyDown
        ⟨[lockedA, unlockedB], ["b"], [], []⟩).selectedIds = []) ∧
    ({ lockedA with points := lockedA.points.map (fun p =>
          ⟨p.x + (-1) * (if false then (10 : ℚ) else 1) * (1 / 1),
           p.y + 0 * (if false then (10 : ℚ) else 1) * (1 / 1)⟩) }
        ∈ (nudgeKeyDown (-1) 0 false 1
            ⟨[lockedA], some "a", false, none, none, [], none,
             none⟩).annotations) ∧
    ({ lockedA with points := lockedA.points.map (fun p =>
          ⟨p.x + ((7 : ℚ) - 2), p.y + ((9 : ℚ) - 3)⟩) }
        ∈ (shapeDragMouseMove ToolType.select ⟨7, 9⟩
            ⟨[lockedA], some "a", true, some ⟨2, 3⟩, none, [], none,
             none⟩).annotations) := by
  have h := locked_guard_behavior
    ⟨[lockedA, unlockedB], ["a", "b"], [], []⟩
    ⟨[lockedA], some "a", false, none, none, [], none, none⟩
    "a" (-1) 0 1 false ⟨2, 3⟩ ⟨7, 9⟩
  have h2 := locked_guard_behavior
    ⟨[lockedA, unlockedB], ["b"], [], []⟩
    ⟨[lockedA], some "a", true, some ⟨2, 3⟩, none, [], none, none⟩
    "a" (-1) 0 1 false ⟨2, 3⟩ ⟨7, 9⟩
  refine ⟨h.1 (by decide), ?_, ?_, ?_⟩
  · have hb := h2.2.1 (by decide) (by decide)
    refine ⟨?_, hb.2⟩
    rw [hb.1]; decide
  · exact h.2.2.1 rfl rfl rfl rfl (by norm_num) lockedA (by decide) rfl
  · exact h2.2.2.2 rfl rfl rfl rfl lockedA (by decide) rfl

/-- The `handleMouseUp` from src/utils/geometry.ts lines 574-605: reset the
transient drag state; then, with a pending rectangle anchor in rectangle
mode, read the (clamped) current mouse image position (defaulting to
(0,0) when absent, `currentMouseImagePos || { x: 0, y: 0 }`), commit a
new rectangle `[anchor, release]` when both |dx| > 1 and |dy| > 1, else
discard; in both cases clear the anchor. The history snapshot happened at
pointer-down and is modelled separately. -/
def handleMouseUp (tool : ToolType) (currentColor newId : String)
    (s : CanvasState) : CanvasState :=
  let s1 := { s with isDragging := false, dragStart := none,
                     activeVertex := none }
  match s.pendingRectStart with
  | some start =>
    if tool = ToolType.rectangle then
      let imgPos := s.currentMouseImagePos.getD ⟨0, 0⟩
      if 1 < |imgPos.x - start.x| ∧ 1 < |imgPos.y - start.y| then
        let newRect : Annotation :=
          ⟨newId, "defect", ShapeType.rectangle, [start, imgPos],
           currentColor, true, false⟩
        { s1 with annotations := s1.annotations ++ [newRect],
                  selectedId := some newId, pendingRectStart := none }
      else { s1 with pendingRectStart := none }
    else s1
  | none => s1

/-- The polygon branch of `handleMouseDown`, src/utils/geometry.ts lines
376-411: with at least 3 pending points and the click strictly within
`15/scale` image units of the first pending point, commit a polygon whose
points are exactly the pending list and clear the buffer; otherwise
append the clicked point. The snapshot on the first click of a sequence
is modelled separately. -/
def polygonMouseDown (imgPos : Point) (transform : ViewTransform)
    (currentColor newId : String) (s : CanvasState) : CanvasState :=
  if 3 ≤ s.pendingPoly.length ∧
      sqrtLt (getDistanceSq (s.pendingPoly.headD ⟨0, 0⟩) imgPos)
        (15 / transform.scale) then
    let newPoly : Annotation :=
      ⟨newId, "defect", ShapeType.polygon, s.pendingPoly, currentColor,
       true, false⟩
    { s with annotations := s.annotations ++ [newPoly],
             selectedId := some newId, pendingPoly := [] }
  else
    { s with pendingPoly := s.pendingPoly ++ [imgPos] }

/-- C6: on rectangle-tool pointer-up with anchor a and release position
b, a rectangle with points [a, b] is appended iff |b.x - a.x| > 1 and
|b.y - a.y| > 1; otherwise the collection is unchanged (and in both
cases the anchor is cleared). -/
theorem rect_mouseUp_commit (s : CanvasState) (a b : Point)
    (color newId : String)
    (ha : s.pendingRectStart = some a)
    (hb : s.currentMouseImagePos = some b) :
    (1 < |b.x - a.x| ∧ 1 < |b.y - a.y| →
      (handleMouseUp ToolType.rectangle color newId s).annotations
        = s.annotations
          ++ [⟨newId, "defect", ShapeType.rectangle, [a, b], color,
               true, false⟩]) ∧
    (¬ (1 < |b.x - a.x| ∧ 1 < |b.y - a.y|) →
      (handleMouseUp ToolType.rectangle color newId s).annotations
        = s.annotations) ∧
    (handleMouseUp ToolType.rectangle color newId s).pendingRectStart
      = none := by
  simp only [handleMouseUp, ha, hb, Option.getD_some, if_true]
  refine ⟨fun h => ?_, fun h => ?_, ?_⟩
  · rw [if_pos h]
  · rw [if_neg h]
  · split <;> rfl

/-- Witness for C6: a drag from (0,0) to (5,5) commits a rectangle with
points [[0,0],[5,5]]; a drag from (0,0) to (0,1) is discarded. -/
theorem rect_mouseUp_commit_witness :
    ((handleMouseUp ToolType.rectangle "#f00" "r1"
        ⟨[], none, true, some ⟨0, 0⟩, some ⟨5, 5⟩, [], some ⟨0, 0⟩,
         none⟩).annotations
      = [] ++ [⟨"r1", "defect", ShapeType.rectangle, [⟨0, 0⟩, ⟨5, 5⟩],
               "#f00", true, false⟩]) ∧
    ((handleMouseUp ToolType.rectangle "#f00" "r2"
        ⟨[], none, true, some ⟨0, 0⟩, some ⟨0, 1⟩, [], some ⟨0, 0⟩,
         none⟩).annotations
      = []) :=
  ⟨(rect_mouseUp_commit
      ⟨[], none, true, some ⟨0, 0⟩, some ⟨5, 5⟩, [], some ⟨0, 0⟩, none⟩
      ⟨0, 0⟩ ⟨5, 5⟩ "#f00" "r1" rfl rfl).1 (by norm_num),
   (rect_mouseUp_commit
      ⟨[], none, true, some ⟨0, 0⟩, some ⟨0, 1⟩, [], some ⟨0, 0⟩, none⟩
      ⟨0, 0⟩ ⟨0, 1⟩ "#f00" "r2" rfl rfl).2.1 (by norm_num)⟩

/-- C7: in polygon mode, a pointer-down with ≥3 pending points landing
strictly within 15/scale of the first pending point appends a polygon
whose points are exactly the pending list and clears the buffer; any
other pointer-down appends the clicked point and leaves the collection
unchanged. -/
theorem polygon_mouseDown_spec (imgPos : Point) (T : ViewTransform)
    (color newId : String) (s : CanvasState) :
    (3 ≤ s.pendingPoly.length →
      sqrtLt (getDistanceSq (s.pendingPoly.headD ⟨0, 0⟩) imgPos)
        (15 / T.scale) →
      (polygonMouseDown imgPos T color newId s).annotations
        = s.annotations
          ++ [⟨newId, "defect", ShapeType.polygon, s.pendingPoly, color,
               true, false⟩] ∧
      (polygonMouseDown imgPos T color newId s).pendingPoly = []) ∧
    (¬ (3 ≤ s.pendingPoly.length ∧
        sqrtLt (getDistanceSq (s.pendingPoly.headD ⟨0, 0⟩) imgPos)
          (15 / T.scale)) →
      (polygonMouseDown imgPos T color newId s).pendingPoly
        = s.pendingPoly ++ [imgPos] ∧
      (polygonMouseDown imgPos T color newId s).annotations
        = s.annotations) := by
  constructor
  · intro h1 h2
    unfold polygonMouseDown
    rw [if_pos (And.intro h1 h2)]
    exact ⟨rfl, rfl⟩
  · intro h
    unfold polygonMouseDown
    rw [if_neg h]
    exact ⟨rfl, rfl⟩

/-- Witness for C7: pending clicks (0,0), (10,0), (10,10) at scale 1,
then a click at (1,1) (within 15 of the first point) commits the 3-point
polygon and clears the buffer, while a click at (100,100) instead
appends a 4th point. -/
theorem polygon_mouseDown_spec_witness :
    ((polygonMouseDown ⟨1, 1⟩ ⟨1, 0, 0⟩ "#f00" "p1"
        ⟨[], none, false, none, none, [⟨0, 0⟩, ⟨10, 0⟩, ⟨10, 10⟩], none,
         none⟩).annotations
      = [] ++ [⟨"p1", "defect", ShapeType.polygon,
               [⟨0, 0⟩, ⟨10, 0⟩, ⟨10, 10⟩], "#f00", true, false⟩] ∧
     (polygonMouseDown ⟨1, 1⟩ ⟨1, 0, 0⟩ "#f00" "p1"
        ⟨[], none, false, none, none, [⟨0, 0⟩, ⟨10, 0⟩, ⟨10, 10⟩], none,
         none⟩).pendingPoly = []) ∧
    ((polygonMouseDown ⟨100, 100⟩ ⟨1, 0, 0⟩ "#f00" "p2"
        ⟨[], none, false, none, none, [⟨0, 0⟩, ⟨10, 0⟩, ⟨10, 10⟩], none,
         none⟩).pendingPoly
      = [⟨0, 0⟩, ⟨10, 0⟩, ⟨10, 10⟩] ++ [⟨100, 100⟩] ∧
     (polygonMouseDown ⟨100, 100⟩ ⟨1, 0, 0⟩ "#f00" "p2"
        ⟨[], none, false, none, none, [⟨0, 0⟩, ⟨10, 0⟩, ⟨10, 10⟩], none,
         none⟩).annotations = []) :=
  ⟨(polygon_mouseDown_spec ⟨1, 1⟩ ⟨1, 0, 0⟩ "#f00" "p1"
      ⟨[], none, false, none, none, [⟨0, 0⟩, ⟨10, 0⟩, ⟨10, 10⟩], none,
       none⟩).1 (by norm_num)
      (by norm_num [sqrtLt, getDistanceSq]),
   (polygon_mouseDown_spec ⟨100, 100⟩ ⟨1, 0, 0⟩ "#f00" "p2"
      ⟨[], none, false, none, none, [⟨0, 0⟩, ⟨10, 0⟩, ⟨10, 10⟩], none,
       none⟩).2 (by norm_num [sqrtLt, getDistanceSq])⟩

/-- The `Math.min(...xs)` over a nonempty coordinate list; the empty case
(JS yields +Infinity) never arises because annotations always hold at
least two points. -/
def jsMin : List ℚ → ℚ
  | [] => 0
  | x :: xs => xs.foldl min x

/-- The `Math.max(...xs)`, same conventions as `jsMin`. -/
def jsMax : List ℚ → ℚ
  | [] => 0
  | x :: xs => xs.foldl max x

/-- The `BoundingBox` from src/unnamed/part_002 lines 84-93. -/
structure BoundingBox where
  minX : ℚ
  maxX : ℚ
  minY : ℚ
  maxY : ℚ
  width : ℚ
  height : ℚ
  centerX : ℚ
  centerY : ℚ
  deriving Repr, DecidableEq

/-- The `getPointsBounds` from src/unnamed/part_002 lines 95-113. -/
def getPointsBounds (points : List Point) : BoundingBox :=
  let xs := points.map Point.x
  let ys := points.map Point.y
  let minX := jsMin xs
  let maxX := jsMax xs
  let minY := jsMin ys
  let maxY := jsMax ys
  { minX := minX, maxX := maxX, minY := minY, maxY := maxY,
    width := maxX - minX, height := maxY - minY,
    centerX := (minX + maxX) / 2, centerY := (minY + maxY) / 2 }

/-- The `getAnnotationBounds` from src/unnamed/part_002 lines 115-117. -/
def getAnnotationBounds (ann : Annotation) : BoundingBox :=
  getPointsBounds ann.points

/-- The `moveAnnotation` from src/unnamed/part_002 lines 119-124. -/
def moveAnnotation (ann : Annotation) (dx dy : ℚ) : Annotation :=
  { ann with points := ann.points.map (fun p => ⟨p.x + dx, p.y + dy⟩) }

/-- Alignment directions of `handleAlign` in src/App.tsx line 281. -/
inductive AlignType where
  | left
  | center
  | right
  | top
  | middle
  | bottom
  deriving Repr, DecidableEq

/-- The `handleAlign` from src/App.tsx lines 281-316 (annotation mapping; the
preceding history snapshot is modelled separately): no-op below 2
selected shapes, else translate each selected shape so its edge/center
matches the group bound on the chosen axis. -/
def handleAlign (type : AlignType) (selectedIds : List String)
    (annotations : List Annotation) : List Annotation :=
  let selectedAnns := annotations.filter (fun a =>
    selectedIds.contains a.id)
  if selectedAnns.length < 2 then annotations
  else
    let allBounds := selectedAnns.map getAnnotationBounds
    let groupMinX := jsMin (allBounds.map BoundingBox.minX)
    let groupMaxX := jsMax (allBounds.map BoundingBox.maxX)
    let groupMinY := jsMin (allBounds.map BoundingBox.minY)
    let groupMaxY := jsMax (allBounds.map BoundingBox.maxY)
    let groupCenterX := (groupMinX + groupMaxX) / 2
    let groupCenterY := (groupMinY + groupMaxY) / 2
    annotations.map (fun ann =>
      if ¬ selectedIds.contains ann.id then ann
      else
        let bounds := getAnnotationBounds ann
        let dxdy : ℚ × ℚ :=
          match type with
          | AlignType.left => (groupMinX - bounds.minX, 0)
          | AlignType.right => (groupMaxX - bounds.maxX, 0)
          | AlignType.center => (groupCenterX - bounds.centerX, 0)
          | AlignType.top => (0, groupMinY - bounds.minY)
          | AlignType.bottom => (0, groupMaxY - bounds.maxY)
          | AlignType.middle => (0, groupCenterY - bounds.centerY)
        moveAnnotation ann dxdy.1 dxdy.2)

/-- The group bound used by align-left: the minimum bounding-box `minX`
over the selected annotations. -/
def alignGroupMinX (selectedIds : List String)
    (annotations : List Annotation) : ℚ :=
  jsMin (((annotations.filter (fun a => selectedIds.contains a.id)).map
    getAnnotationBounds).map BoundingBox.minX)

/-- Shifting every element of a nonempty list shifts its `jsMin`. -/
theorem jsMin_map_add (l : List ℚ) (c : ℚ) (h : l ≠ []) :
    jsMin (l.map (· + c)) = jsMin l + c := by
  match l with
  | [] => exact absurd rfl h
  | x :: xs =>
    show (xs.map (· + c)).foldl min (x + c) = xs.foldl min x + c
    clear h
    induction xs generalizing x with
    | nil => rfl
    | cons y ys ih =>
      show (ys.map (· + c)).foldl min (min (x + c) (y + c)) = _
      rw [min_add_add_right, ih (min x y)]
      rfl

/-- x-coordinates of a horizontally moved annotation. -/
theorem moveAnnotation_xs (ann : Annotation) (dx dy : ℚ) :
    ( moveAnnotation ann dx dy).points.map Point.x
      = (ann.points.map Point.x).map (· + dx) := by
  simp [ moveAnnotation, Function.comp]

/-- Horizontally translating an annotation shifts its bounding-box
`minX` by the same amount. -/
theorem moveAnnotation_minX (ann : Annotation) (dx dy : ℚ)
    (h : ann.points ≠ []) :
    (getAnnotationBounds ( moveAnnotation ann dx dy)).minX
      = (getAnnotationBounds ann).minX + dx := by
  show jsMin (( moveAnnotation ann dx dy).points.map Point.x) = _
  rw [moveAnnotation_xs]
  exact jsMin_map_add _ dx (by simpa using h)

/-- C8: align-left is a no-op below 2 selected shapes; otherwise it
leaves non-selected annotations unchanged and translates each selected
annotation purely horizontally (every y coordinate unchanged) so that
its bounding-box `minX` becomes the minimum `minX` over the selected
shapes. -/
theorem handleAlign_left_spec (ids : List String)
    (anns : List Annotation) :
    ((anns.filter (fun a => ids.contains a.id)).length < 2 →
      handleAlign AlignType.left ids anns = anns) ∧
    (2 ≤ (anns.filter (fun a => ids.contains a.id)).length →
      (∀ a ∈ anns, a.points ≠ []) →
      List.Forall₂ (fun ann res =>
        if ids.contains ann.id then
          res.points = ann.points.map (fun p =>
            ⟨p.x + (alignGroupMinX ids anns
                      - (getAnnotationBounds ann).minX), p.y⟩) ∧
          (getAnnotationBounds res).minX = alignGroupMinX ids anns
        else res = ann) anns (handleAlign AlignType.left ids anns)) := by
  constructor
  · intro h
    unfold handleAlign
    rw [if_pos h]
  · intro hlen hne
    unfold handleAlign
    rw [if_neg (not_lt.2 hlen)]
    rw [List.forall₂_map_right_iff]
    rw [List.forall₂_same]
    intro ann hmem
    by_cases hc : ids.contains ann.id = true
    · rw [if_neg (not_not_intro hc), if_pos hc]
      dsimp only
      constructor
      · simp only [ moveAnnotation, alignGroupMinX]
        exact List.map_congr_left (fun p _ => by simp)
      · rw [moveAnnotation_minX ann _ 0 (hne ann hmem)]
        unfold alignGroupMinX
        ring
    · rw [if_pos hc, if_neg hc]

/-- Witness for C8: A with x-bounds [0,10] and B with x-bounds [20,30],
align-left on both: A is unchanged in x (dx = 0) and B is shifted by
-20; both end with bounding-box minX = 0, the group minimum. -/
theorem handleAlign_left_spec_witness :
    List.Forall₂ (fun ann res =>
      if ["a", "b"].contains ann.id then
        res.points = ann.points.map (fun p =>
          ⟨p.x + (alignGroupMinX ["a", "b"] [lockedA, unlockedB]
                    - (getAnnotationBounds ann).minX), p.y⟩) ∧
        (getAnnotationBounds res).minX
          = alignGroupMinX ["a", "b"] [lockedA, unlockedB]
      else res = ann) [lockedA, unlockedB]
      (handleAlign AlignType.left ["a", "b"] [lockedA, unlockedB]) ∧
    handleAlign AlignType.left ["a"] [lockedA, unlockedB]
      = [lockedA, unlockedB] :=
  ⟨(handleAlign_left_spec ["a", "b"] [lockedA, unlockedB]).2
    (by decide) (by decide),
   (handleAlign_left_spec ["a"] [lockedA, unlockedB]).1 (by decide)⟩

/-- The `points[i]` as read by the shoelace loop; the default is never used
since the loop index stays below `points.length`. -/
def nthPoint (l : List Point) (i : ℕ) : Point := l.getD i ⟨0, 0⟩

/-- The signed accumulator of `calculatePolygonArea`,
src/unnamed/part_002 lines 59-67: for each `i < n`, with `j = (i+1) % n`,
add `points[i].x * points[j].y - points[j].x * points[i].y`. -/
def shoelaceSum (points : List Point) : ℚ :=
  ∑ i in Finset.range points.length,
    ((nthPoint points i).x * (nthPoint points ((i + 1) % points.length)).y
      - (nthPoint points ((i + 1) % points.length)).x
        * (nthPoint points i).y)

/-- The `calculatePolygonArea` from src/unnamed/part_002 lines 59-68:
`Math.abs(area) / 2`. -/
def calculatePolygonArea (points : List Point) : ℚ :=
  |shoelaceSum points| / 2

/-- Summing `f ((i+1) % n)` over `range n` is a cyclic rotation of
summing `f i`. -/
theorem sum_rotate (n : ℕ) (f : ℕ → ℚ) :
    ∑ i in Finset.range n, f ((i + 1) % n) = ∑ i in Finset.range n, f i := by
  cases n with
  | zero => simp
  | succ m =>
    rw [Finset.sum_range_succ (fun i => f ((i + 1) % (m + 1))),
      Finset.sum_range_succ' f m]
    congr 1
    · refine Finset.sum_congr rfl fun i hi => ?_
      rw [Nat.mod_eq_of_lt (by
        have := Finset.mem_range.1 hi; omega)]
    · rw [Nat.mod_self]

/-- Reading a mapped list at an in-range index. -/
theorem nthPoint_map (f : Point → Point) (l : List Point) (i : ℕ)
    (h : i < l.length) :
    nthPoint (l.map f) i = f (nthPoint l i) := by
  induction l generalizing i with
  | nil => simp at h
  | cons a t ih =>
    cases i with
    | zero => rfl
    | succ j => exact ih j (by simpa using h)

/-- Reading a reversed list at an in-range index. -/
theorem nthPoint_reverse (l : List Point) (i : ℕ) (h : i < l.length) :
    nthPoint l.reverse i = nthPoint l (l.length - 1 - i) := by
  unfold nthPoint
  rw [List.getD_eq_getElem l.reverse _ (by simpa using h),
    List.getD_eq_getElem l _ (by omega), List.getElem_reverse]

/-- Translating every point leaves the signed shoelace sum unchanged:
the extra terms telescope around the cycle. -/
theorem shoelaceSum_translate (points : List Point) (dx dy : ℚ) :
    shoelaceSum (points.map (fun p => ⟨p.x + dx, p.y + dy⟩))
      = shoelaceSum points := by
  unfold shoelaceSum
  simp only [List.length_map]
  have step : ∀ i ∈ Finset.range points.length,
      ((nthPoint (points.map fun p => ⟨p.x + dx, p.y + dy⟩) i).x
          * (nthPoint (points.map fun p => ⟨p.x + dx, p.y + dy⟩)
              ((i + 1) % points.length)).y
        - (nthPoint (points.map fun p => ⟨p.x + dx, p.y + dy⟩)
              ((i + 1) % points.length)).x
          * (nthPoint (points.map fun p => ⟨p.x + dx, p.y + dy⟩) i).y)
      = (((nthPoint points i).x
            * (nthPoint points ((i + 1) % points.length)).y
          - (nthPoint points ((i + 1) % points.length)).x
            * (nthPoint points i).y)
        + (dy * (nthPoint points i).x
            - dy * (nthPoint points ((i + 1) % points.length)).x)
        + (dx * (nthPoint points ((i + 1) % points.length)).y
            - dx * (nthPoint points i).y)) := by
    intro i hi
    have hi' := Finset.mem_range.1 hi
    have hσ : (i + 1) % points.length < points.length :=
      Nat.mod_lt _ (by omega)
    rw [nthPoint_map _ _ _ hi', nthPoint_map _ _ _ hσ]
    ring
  rw [Finset.sum_congr rfl step, Finset.sum_add_distrib,
    Finset.sum_add_distrib, Finset.sum_sub_distrib,
    Finset.sum_sub_distrib, Finset.sum_sub_distrib,
    sum_rotate points.length (fun j => dy * (nthPoint points j).x),
    sum_rotate points.length (fun j => dx * (nthPoint points j).y)]
  ring

/-- Reversing a cyclically indexed sequence negates the cyclic cross
sum. -/
theorem cyclic_reverse_sum (m : ℕ) (X Y : ℕ → ℚ) :
    ∑ i in Finset.range (m + 1),
      (X (m - i) * Y (m - ((i + 1) % (m + 1)))
        - X (m - ((i + 1) % (m + 1))) * Y (m - i))
    = -∑ i in Finset.range (m + 1),
      (X i * Y ((i + 1) % (m + 1)) - X ((i + 1) % (m + 1)) * Y i) := by
  rw [Finset.sum_range_succ (fun i => X (m - i) * Y (m - ((i + 1) % (m + 1)))
        - X (m - ((i + 1) % (m + 1))) * Y (m - i)),
      Finset.sum_range_succ (fun i => X i * Y ((i + 1) % (m + 1))
        - X ((i + 1) % (m + 1)) * Y i)]
  have hmod : ∀ i, i < m → (i + 1) % (m + 1) = i + 1 :=
    fun i h => Nat.mod_eq_of_lt (by omega)
  have h1 : ∑ i in Finset.range m,
        (X (m - i) * Y (m - ((i + 1) % (m + 1)))
          - X (m - ((i + 1) % (m + 1))) * Y (m - i))
      = ∑ i in Finset.range m,
        (X (m - i) * Y (m - (i + 1)) - X (m - (i + 1)) * Y (m - i)) :=
    Finset.sum_congr rfl fun i hi => by
      rw [hmod i (Finset.mem_range.1 hi)]
  have h2 : ∑ i in Finset.range m,
        (X i * Y ((i + 1) % (m + 1)) - X ((i + 1) % (m + 1)) * Y i)
      = ∑ i in Finset.range m,
        (X i * Y (i + 1) - X (i + 1) * Y i) :=
    Finset.sum_congr rfl fun i hi => by
      rw [hmod i (Finset.mem_range.1 hi)]
  rw [h1, h2, Nat.mod_self, Nat.sub_self, Nat.sub_zero]
  have h3 : ∑ i in Finset.range m,
        (X (m - i) * Y (m - (i + 1)) - X (m - (i + 1)) * Y (m - i))
      = ∑ i in Finset.range m,
        (X (i + 1) * Y i - X i * Y (i + 1)) := by
    have h5 : ∑ i in Finset.range m,
          (X (m - i) * Y (m - (i + 1)) - X (m - (i + 1)) * Y (m - i))
        = ∑ j in Finset.range m,
          (X (m - 1 - j + 1) * Y (m - 1 - j)
            - X (m - 1 - j) * Y (m - 1 - j + 1)) :=
      Finset.sum_congr rfl fun j hj => by
        have hj' := Finset.mem_range.1 hj
        have e1 : m - 1 - j + 1 = m - j := by omega
        have e2 : m - (j + 1) = m - 1 - j := by omega
        rw [e1, e2]
    rw [h5, Finset.sum_range_reflect (fun j => X (j + 1) * Y j
      - X j * Y (j + 1)) m]
  have h4 : ∑ i in Finset.range m, (X (i + 1) * Y i - X i * Y (i + 1))
      = -∑ i in Finset.range m, (X i * Y (i + 1) - X (i + 1) * Y i) := by
    rw [← Finset.sum_neg_distrib]
    exact Finset.sum_congr rfl fun i _ => by ring
  rw [h3, h4]
  ring

/-- Reversing the point order negates the signed shoelace sum. -/
theorem shoelaceSum_reverse (points : List Point) :
    shoelaceSum points.reverse = -shoelaceSum points := by
  cases points with
  | nil => simp [shoelaceSum]
  | cons a t =>
    unfold shoelaceSum
    simp only [List.length_reverse, List.length_cons]
    have hrev : ∀ i, i < t.length + 1 →
        nthPoint (a :: t).reverse i = nthPoint (a :: t) (t.length - i) := by
      intro i hi
      rw [nthPoint_reverse _ _ (by simp only [List.length_cons]; omega)]
      congr 1
    have hcong : ∑ i in Finset.range (t.length + 1),
        ((nthPoint (a :: t).reverse i).x
            * (nthPoint (a :: t).reverse ((i + 1) % (t.length + 1))).y
          - (nthPoint (a :: t).reverse ((i + 1) % (t.length + 1))).x
            * (nthPoint (a :: t).reverse i).y)
        = ∑ i in Finset.range (t.length + 1),
        ((nthPoint (a :: t) (t.length - i)).x
            * (nthPoint (a :: t)
                (t.length - ((i + 1) % (t.length + 1)))).y
          - (nthPoint (a :: t)
                (t.length - ((i + 1) % (t.length + 1)))).x
            * (nthPoint (a :: t) (t.length - i)).y) :=
      Finset.sum_congr rfl fun i hi => by
        have hi' := Finset.mem_range.1 hi
        rw [hrev i hi', hrev _ (Nat.mod_lt _ (by omega))]
    rw [hcong]
    exact cyclic_reverse_sum t.length (fun j => (nthPoint (a :: t) j).x)
      (fun j => (nthPoint (a :: t) j).y)

/-- C9: the polygon area computed by the shoelace formula is invariant
under adding the same (dx, dy) offset to every point, and invariant
under reversing the point order (the absolute value of the signed sum is
taken). -/
theorem calculatePolygonArea_invariance (points : List Point)
    (dx dy : ℚ) :
    calculatePolygonArea (points.map (fun p => ⟨p.x + dx, p.y + dy⟩))
      = calculatePolygonArea points ∧
    calculatePolygonArea points.reverse = calculatePolygonArea points := by
  unfold calculatePolygonArea
  rw [shoelaceSum_translate, shoelaceSum_reverse, abs_neg]
  exact ⟨rfl, rfl⟩

/-- C4: a wheel event preserves the image point under the pointer:
`screenToImage m T' = screenToImage m T` for `T' = onWheel deltaY m T`,
whenever the old scale is nonzero — including when the new scale is
clamped, since the translation formula uses the clamped `newScale`. -/
theorem onWheel_anchor_preserving
    (deltaY mouseX mouseY : ℚ) (T : ViewTransform) (h : T.scale ≠ 0) :
    screenToImage mouseX mouseY (onWheel deltaY mouseX mouseY T)
      = screenToImage mouseX mouseY T := by
  have hpos : (0 : ℚ) < max (1/10) (min (T.scale *
      (1 + wheelDirection deltaY * (1/10))) 50) :=
    lt_of_lt_of_le (by norm_num) (le_max_left _ _)
  simp only [screenToImage, onWheel]
  simp only [Point.mk.injEq]
  constructor <;> · field_simp; ring

/-- Witness for C4 at deltaY = -3 (zoom in), mouse (100, 40),
T = ⟨2, 10, 20⟩. -/
theorem onWheel_anchor_preserving_witness :
    (⟨2, 10, 20⟩ : ViewTransform).scale ≠ 0 ∧
    screenToImage 100 40 (onWheel (-3) 100 40 ⟨2, 10, 20⟩)
      = screenToImage 100 40 ⟨2, 10, 20⟩ :=
  ⟨by decide, onWheel_anchor_preserving (-3) 100 40 ⟨2, 10, 20⟩ (by decide)⟩

/-- One wheel step always outputs a scale inside [0.1, 50], whatever the
input scale: the clamp `max (1/10) (min _ 50)` guarantees it. -/
theorem onWheel_scale_mem
    (deltaY mouseX mouseY : ℚ) (T : ViewTransform) :
    1/10 ≤ (onWheel deltaY mouseX mouseY T).scale ∧
    (onWheel deltaY mouseX mouseY T).scale ≤ 50 := by
  refine ⟨le_max_left _ _, ?_⟩
  simp only [onWheel]
  exact max_le (by norm_num) (min_le_right _ _)

/-- Fold a list of wheel events (deltaY, mouseX, mouseY) over a transform,
earliest event first. -/
def runWheelEvents (events : List (ℚ × ℚ × ℚ)) (T : ViewTransform) :
    ViewTransform :=
  events.foldl (fun t e => onWheel e.1 e.2.1 e.2.2 t) T

/-- C5: starting from any transform with scale in [0.1, 50], after any
finite sequence of wheel events the scale is still in [0.1, 50]. -/
theorem runWheelEvents_scale_mem
    (events : List (ℚ × ℚ × ℚ)) (T : ViewTransform)
    (h : 1/10 ≤ T.scale ∧ T.scale ≤ 50) :
    1/10 ≤ (runWheelEvents events T).scale ∧
    (runWheelEvents events T).scale ≤ 50 := by
  induction events generalizing T with
  | nil => exact h
  | cons e rest ih =>
    exact ih (onWheel e.1 e.2.1 e.2.2 T) (onWheel_scale_mem e.1 e.2.1 e.2.2 T)

/-- Witness for C5: three wheel events starting from scale 1. -/
theorem runWheelEvents_scale_mem_witness :
    (1/10 ≤ (⟨1, 0, 0⟩ : ViewTransform).scale ∧
      (⟨1, 0, 0⟩ : ViewTransform).scale ≤ 50) ∧
    (1/10 ≤ (runWheelEvents [(-1, 5, 5), (2, 7, 7), (-1, 0, 0)]
        ⟨1, 0, 0⟩).scale ∧
      (runWheelEvents [(-1, 5, 5), (2, 7, 7), (-1, 0, 0)]
        ⟨1, 0, 0⟩).scale ≤ 50) :=
  ⟨by constructor <;> norm_num,
   runWheelEvents_scale_mem [(-1, 5, 5), (2, 7, 7), (-1, 0, 0)] ⟨1, 0, 0⟩
     (by constructor <;> norm_num)⟩

/-- C10: the keyboard/toolbar `handleZoom` multiplies by 1.2 (in) or
divides by 1.2 (out) with no clamping, so from starting scales inside
[0.1, 50] a zoom-in press exceeds 50 and a zoom-out press drops below
0.1; the wheel path, in contrast, always clamps to [0.1, 50]. -/
theorem handleZoom_unclamped :
    (∀ (b : Bool) (T : ViewTransform), (handleZoom b T).scale =
      if b then T.scale * (12/10) else T.scale / (12/10)) ∧
    (∃ s : ℚ, 1/10 ≤ s ∧ s ≤ 50 ∧
      50 < (handleZoom true ⟨s, 0, 0⟩).scale) ∧
    (∃ s : ℚ, 1/10 ≤ s ∧ s ≤ 50 ∧
      (handleZoom false ⟨s, 0, 0⟩).scale < 1/10) ∧
    (∀ (deltaY mouseX mouseY : ℚ) (T : ViewTransform),
      1/10 ≤ (onWheel deltaY mouseX mouseY T).scale ∧
      (onWheel deltaY mouseX mouseY T).scale ≤ 50) := by
  refine ⟨fun b T => rfl, ⟨50, by norm_num, by norm_num, ?_⟩,
    ⟨1/10, by norm_num, by norm_num, ?_⟩, onWheel_scale_mem⟩
  · show (50 : ℚ) < 50 * (12/10); norm_num
  · show (1/10 : ℚ) / (12/10) < 1/10; norm_num

end HsLabel
